import Mathlib

/-!
Verification of the VidSnapAI job-processing pipeline
(`my_modules/VidSnapAI/generate_process.py` and `my_modules/VidSnapAI/main.py`).

The scheduler loop, the ledger file (`done.txt`) parsing, the synthesis and
assembly steps, and the upload endpoint's manifest writing are embedded as
executable Lean functions.  External effects (reading `desc.txt`, calling the
remote speech provider, running the ffmpeg subprocess, appending to the
ledger) are recorded in an explicit event trace; the outcome of each external
call is supplied by an `Env` oracle.
-/

set_option maxRecDepth 4000

namespace VidSnap

/-- Python `str.strip()` whitespace set (ASCII part), as used on ledger lines. -/
def isPySpace (c : Char) : Bool :=
  c = ' ' || c = '\t' || c = '\n' || c = '\r' || c = '\x0b' || c = '\x0c'

/-- Python `str.strip()` on a character list: drop whitespace from both ends. -/
def stripL (l : List Char) : List Char :=
  ((l.dropWhile isPySpace).reverse.dropWhile isPySpace).reverse

/-- Python `file.readlines()` on a character list: split after each `'\n'`,
keeping the terminator with its line and producing no empty final chunk. -/
def pyReadlinesL : List Char → List (List Char)
  | [] => []
  | c :: rest =>
    if c = '\n' then ['\n'] :: pyReadlinesL rest
    else
      match pyReadlinesL rest with
      | [] => [[c]]
      | l :: ls => (c :: l) :: ls

/-- The `done_folders` list computed at the top of every scan:
`f.readlines()` followed by `str.strip()` on each line
(`generate_process.py`, `__main__` loop). -/
def doneFoldersOf (content : String) : List String :=
  (pyReadlinesL content.data).map (fun l => String.mk (stripL l))

/-- Events recorded while the scheduler loop runs.  `rename` is in the
vocabulary so that the absence of any rename step in the assembly stage can be
stated; the embedded code never emits it. -/
inductive Event where
  | readDesc (folder : String)
  | providerCall (text folder : String)
  | runShell (folder cmd : String)
  | rename (src dst : String)
  | ledgerAppend (folder : String)
  deriving DecidableEq, Repr

/-- The folder (job id) an event belongs to. -/
def Event.folder : Event → String
  | .readDesc f => f
  | .providerCall _ f => f
  | .runShell f _ => f
  | .rename _ _ => ""
  | .ledgerAppend f => f

/-- `SynthesisError` taxonomy of the synthesis stage. -/
inductive SynthesisError where
  | EmptyInput
  | ProviderFailure
  deriving DecidableEq, Repr

/-- Oracle for the external world one scan interacts with: the directory
listing of `user_uploads`, the contents of each folder's `desc.txt` (`none`
means the file is missing or unreadable), whether the remote speech provider
succeeds, and the exit code of the ffmpeg subprocess for each folder. -/
structure Env where
  folders : List String
  desc : String → Option String
  provider : String → String → Bool
  ffmpegExit : String → Nat

/-- Whether an `Except` result is a normal return (no exception raised). -/
def exceptOk : Except SynthesisError Unit → Bool
  | .ok _ => true
  | .error _ => false

/-- The exact ffmpeg command string built by `create_reel`
(`generate_process.py`): the folder name is interpolated verbatim, three
times, into a shell command. -/
def ffmpegCommand (folder : String) : String :=
  "ffmpeg -f concat -safe 0 -i " ++ ("user_uploads/" ++ folder ++ "/input.txt")
    ++ " -i " ++ ("user_uploads/" ++ folder ++ "/audio.mp3")
    ++ " -vf \"scale=1080:1920: force_original_aspect_ratio=decrease,pad=1080:1920:(ow-iw)/2:(oh-ih)/2:black\" -c:v libx264 -c:a aac -shortest -r 30 -pix_fmt yuv420p "
    ++ ("static/reels/" ++ folder ++ ".mp4")

/-- Modelled from the spec: `text_to_speech_file` (module `text_to_audio`,
imported by `generate_process.py` but absent from the sources).  Per the
spec's Synthesis Stage contract, empty text is rejected as
`SynthesisError.EmptyInput` without contacting the remote provider; non-empty
text is sent to the provider exactly once, whose success or failure the
environment decides. -/
def text_to_speech_file (env : Env) (text folder : String) :
    List Event × Except SynthesisError Unit :=
  if text = "" then ([], .error .EmptyInput)
  else if env.provider text folder then ([.providerCall text folder], .ok ())
  else ([.providerCall text folder], .error .ProviderFailure)

/-- `text_to_audio` (`generate_process.py`): read `desc.txt` and hand the text
to `text_to_speech_file`.  The boolean is `false` when an exception escapes
(missing description file, or a synthesis error). -/
def text_to_audio (env : Env) (folder : String) : List Event × Bool :=
  match env.desc folder with
  | none => ([.readDesc folder], false)
  | some text =>
    let r := text_to_speech_file env text folder
    (.readDesc folder :: r.1, exceptOk r.2)

/-- `create_reel` (`generate_process.py`): run the ffmpeg command through the
shell with `check=True`; a non-zero exit code raises. -/
def create_reel (env : Env) (folder : String) : List Event × Bool :=
  ([.runShell folder (ffmpegCommand folder)], env.ffmpegExit folder == 0)

/-- The body of the scheduler loop for one folder not in `done_folders`:
`text_to_audio`, then `create_reel`, then append the folder to `done.txt`.
The boolean is `false` when an exception escaped (which kills the loop). -/
def processFolder (env : Env) (folder : String) : List Event × Bool :=
  let a := text_to_audio env folder
  if a.2 = false then (a.1, false)
  else
    let c := create_reel env folder
    if c.2 = false then (a.1 ++ c.1, false)
    else (a.1 ++ c.1 ++ [.ledgerAppend folder], true)

/-- The `for folder in folders` loop of one scan, with `done_folders` fixed at
scan start.  Returns the event trace, the ids appended to `done.txt` during
this scan in order, and `true` iff the scan completed without an uncaught
exception. -/
def scanFolders (env : Env) (done : List String) :
    List String → List Event × List String × Bool
  | [] => ([], [], true)
  | folder :: rest =>
    if folder ∈ done then scanFolders env done rest
    else
      let p := processFolder env folder
      if p.2 then
        let r := scanFolders env done rest
        (p.1 ++ r.1, folder :: r.2.1, r.2.2)
      else (p.1, [], false)

/-- One iteration of the `while True` loop: read and parse `done.txt`, list
`user_uploads`, process every folder not already recorded. -/
def runScan (env : Env) (content : String) : List Event × List String × Bool :=
  scanFolders env (doneFoldersOf content) env.folders

/-- The content of `done.txt` after the scan: each successfully processed
folder was appended, newline-terminated, in order. -/
def newContent : String → List String → String
  | c, [] => c
  | c, i :: is => newContent (c ++ (i ++ "\n")) is

end VidSnap

namespace VidSnapWeb

/-- `ALLOWED_EXTENSIONS` from `main.py`. -/
def allowedExtensions : List String := ["png", "jpg", "jpeg"]

/-- The characters after the last `'.'` (Python `rsplit('.', 1)[1]`). -/
def extAfterLastDot (l : List Char) : List Char :=
  (l.reverse.takeWhile (fun c => c ≠ '.')).reverse

/-- `allowed_file` from `main.py`: the name contains a dot and its lowercased
final extension is one of the allowed ones. -/
def allowed_file (filename : String) : Bool :=
  filename.data.contains '.' &&
    allowedExtensions.contains
      (String.mk ((extAfterLastDot filename.data).map Char.toLower))

/-- The upload endpoint's external collaborator `werkzeug.utils.secure_filename`,
kept abstract at its interface boundary. -/
structure UploadEnv where
  sf : String → String

/-- The `input_files` list accumulated by the `request.files` loop of `create`
(`main.py`): files with a non-empty, allowed filename are saved under their
secured name and collected in iteration order; nothing is collected when no
uuid was posted. -/
def input_files (env : UploadEnv) (recId : Option String)
    (files : List String) : List String :=
  match recId with
  | none => []
  | some _ => (files.filter (fun fn => fn ≠ "" && allowed_file fn)).map env.sf

/-- One manifest chunk written per collected file by `create` (`main.py`):
`f"file '{fl}' \nduration 2 \n"`. -/
def manifestLine (fl : String) : String :=
  "file \x27" ++ fl ++ "\x27 \nduration 2 \n"

/-- The second loop of `create` (`main.py`): for each collected file, open
`input.txt` in append mode and write its manifest chunk. -/
def manifestAfterPost (env : UploadEnv) (recId : Option String)
    (existing : String) (files : List String) : String :=
  (input_files env recId files).foldl (fun acc fl => acc ++ manifestLine fl) existing

/-- The manifest text for a list of (already secured) names, in order. -/
def renderOf : List String → String
  | [] => ""
  | x :: xs => manifestLine x ++ renderOf xs

end VidSnapWeb

namespace VidSnap

/-- Case-by-case form of one loop body: the four possible traces. -/
theorem processFolder_eq (env : Env) (g : String) :
    processFolder env g =
      match env.desc g with
      | none => ([.readDesc g], false)
      | some text =>
        if text = "" then ([.readDesc g], false)
        else if env.provider text g then
          if env.ffmpegExit g == 0 then
            ([.readDesc g, .providerCall text g, .runShell g (ffmpegCommand g),
              .ledgerAppend g], true)
          else
            ([.readDesc g, .providerCall text g, .runShell g (ffmpegCommand g)],
              false)
        else ([.readDesc g, .providerCall text g], false) := by
  unfold processFolder text_to_audio text_to_speech_file create_reel exceptOk
  cases hd : env.desc g with
  | none => simp
  | some text =>
    by_cases ht : text = ""
    · simp [ht]
    · by_cases hp : env.provider text g
      · by_cases he : env.ffmpegExit g == 0 <;> simp [ht, hp, he]
      · simp [ht, hp]

/-- Every event emitted while processing a folder carries that folder. -/
theorem folder_of_mem_processFolder (env : Env) (g : String) :
    ∀ e ∈ (processFolder env g).1, Event.folder e = g := by
  have hpe := processFolder_eq env g
  cases hd : env.desc g with
  | none =>
    rw [hd] at hpe
    simp [hpe, Event.folder]
  | some text =>
    rw [hd] at hpe
    by_cases ht : text = ""
    · simp [hpe, ht, Event.folder]
    · by_cases hp : env.provider text g
      · by_cases he : env.ffmpegExit g == 0 <;>
          simp [hpe, ht, hp, he, Event.folder]
      · simp [hpe, ht, hp, Event.folder]

/-- A ledger append is emitted only by a successful loop body for that id. -/
theorem ledgerAppend_mem_processFolder {env : Env} {g x : String}
    (h : Event.ledgerAppend x ∈ (processFolder env g).1) :
    x = g ∧ (processFolder env g).2 = true := by
  have hpe := processFolder_eq env g
  cases hd : env.desc g with
  | none =>
    rw [hd] at hpe
    rw [hpe] at h
    simp at h
  | some text =>
    rw [hd] at hpe
    by_cases ht : text = ""
    · rw [hpe] at h
      simp [ht] at h
    · by_cases hp : env.provider text g
      · by_cases he : env.ffmpegExit g == 0
        · rw [hpe] at h ⊢
          simp [ht, hp, he] at h ⊢
          exact h
        · rw [hpe] at h
          simp [ht, hp, he] at h
      · rw [hpe] at h
        simp [ht, hp] at h

/-- A successful loop body means the ffmpeg subprocess exited with code 0. -/
theorem ffmpegExit_of_processFolder_ok {env : Env} {g : String}
    (h : (processFolder env g).2 = true) : env.ffmpegExit g = 0 := by
  have hpe := processFolder_eq env g
  cases hd : env.desc g with
  | none =>
    rw [hd] at hpe
    rw [hpe] at h
    simp at h
  | some text =>
    rw [hd] at hpe
    rw [hpe] at h
    by_cases ht : text = ""
    · simp [ht] at h
    · by_cases hp : env.provider text g
      · by_cases he : env.ffmpegExit g == 0
        · simpa using he
        · simp [ht, hp, he] at h
      · simp [ht, hp] at h

/-- The trace of a successful loop body: read, provider call, shell run of the
ffmpeg command, ledger append — in that order. -/
theorem processFolder_ok_shape {env : Env} {g : String}
    (h : (processFolder env g).2 = true) :
    ∃ t, env.desc g = some t ∧ t ≠ "" ∧
      (processFolder env g).1 =
        [.readDesc g, .providerCall t g, .runShell g (ffmpegCommand g),
          .ledgerAppend g] := by
  have hpe := processFolder_eq env g
  cases hd : env.desc g with
  | none =>
    rw [hd] at hpe
    rw [hpe] at h
    simp at h
  | some text =>
    rw [hd] at hpe
    rw [hpe] at h
    by_cases ht : text = ""
    · simp [ht] at h
    · by_cases hp : env.provider text g
      · by_cases he : env.ffmpegExit g == 0
        · exact ⟨text, rfl, ht, by rw [hpe]; simp [ht, hp, he]⟩
        · simp [ht, hp, he] at h
      · simp [ht, hp] at h

/-- A shell run emitted while processing `g` runs the ffmpeg command for `g`. -/
theorem runShell_mem_processFolder {env : Env} {g x c : String}
    (h : Event.runShell x c ∈ (processFolder env g).1) :
    x = g ∧ c = ffmpegCommand g := by
  have hpe := processFolder_eq env g
  cases hd : env.desc g with
  | none =>
    rw [hd] at hpe
    rw [hpe] at h
    simp at h
  | some text =>
    rw [hd] at hpe
    rw [hpe] at h
    by_cases ht : text = ""
    · simp [ht] at h
    · by_cases hp : env.provider text g
      · by_cases he : env.ffmpegExit g == 0 <;>
          · simp [ht, hp, he] at h
            exact ⟨h.1, h.2⟩
      · simp [ht, hp] at h

/-- A provider call emitted while processing `g` carries `g`'s non-empty
description text: the provider is never contacted for an empty description. -/
theorem providerCall_mem_processFolder {env : Env} {g t x : String}
    (h : Event.providerCall t x ∈ (processFolder env g).1) :
    x = g ∧ env.desc g = some t ∧ t ≠ "" := by
  have hpe := processFolder_eq env g
  cases hd : env.desc g with
  | none =>
    rw [hd] at hpe
    rw [hpe] at h
    simp at h
  | some text =>
    rw [hd] at hpe
    rw [hpe] at h
    by_cases ht : text = ""
    · simp [ht] at h
    · by_cases hp : env.provider text g
      · by_cases he : env.ffmpegExit g == 0 <;>
          · simp [ht, hp, he] at h
            obtain ⟨h1, h2⟩ := h
            subst h1
            subst h2
            exact ⟨rfl, rfl, ht⟩
      · simp [ht, hp] at h
        obtain ⟨h1, h2⟩ := h
        subst h1
        subst h2
        exact ⟨rfl, rfl, ht⟩

/-- A folder whose `desc.txt` is empty fails synthesis immediately: only the
description read happens, with no provider call and no exception-free return. -/
theorem processFolder_empty_desc {env : Env} {g : String}
    (h : env.desc g = some "") :
    processFolder env g = ([Event.readDesc g], false) := by
  have hpe := processFolder_eq env g
  rw [h] at hpe
  rw [hpe]
  simp

/-- A shell run for `g` together with exit code 0 means the loop body for `g`
returned successfully. -/
theorem processFolder_ok_of_runShell {env : Env} {g x c : String}
    (h : Event.runShell x c ∈ (processFolder env g).1)
    (hx : env.ffmpegExit g = 0) : (processFolder env g).2 = true := by
  have hpe := processFolder_eq env g
  cases hd : env.desc g with
  | none =>
    rw [hd] at hpe
    rw [hpe] at h
    simp at h
  | some text =>
    rw [hd] at hpe
    rw [hpe] at h ⊢
    by_cases ht : text = ""
    · simp [ht] at h
    · by_cases hp : env.provider text g
      · have he : (env.ffmpegExit g == 0) = true := by simp [hx]
        simp [ht, hp, he]
      · simp [ht, hp] at h

/-- A prefix of a concatenation is a prefix of the left part, or the whole
left part followed by a prefix of the right part. -/
theorem prefix_append_cases {α : Type} (a : List α) :
    ∀ p b : List α, p <+: a ++ b → p <+: a ∨ ∃ q, p = a ++ q ∧ q <+: b := by
  induction a with
  | nil =>
    intro p b h
    right
    exact ⟨p, by simp, h⟩
  | cons x a ih =>
    intro p b h
    cases p with
    | nil =>
      left
      exact List.nil_prefix
    | cons y p2 =>
      rw [List.cons_append] at h
      obtain ⟨rfl, h3⟩ := List.cons_prefix_cons.mp h
      rcases ih p2 b h3 with h4 | ⟨q, rfl, h5⟩
      · left
        exact List.cons_prefix_cons.mpr ⟨rfl, h4⟩
      · right
        exact ⟨q, by simp, h5⟩

/-- A prefix of `l ++ [y]` containing `y`, with `y` not in `l`, is all of it. -/
theorem prefix_concat_full {α : Type} {l p : List α} {y : α}
    (h : p <+: l ++ [y]) (hy : y ∈ p) (hnl : y ∉ l) : p = l ++ [y] := by
  rcases prefix_append_cases l p [y] h with h1 | ⟨q, rfl, h2⟩
  · exact absurd (h1.subset hy) hnl
  · rcases List.mem_append.mp hy with h3 | h3
    · exact absurd h3 hnl
    · cases q with
      | nil => simp at h3
      | cons z q2 =>
        obtain ⟨rfl, h4⟩ := List.cons_prefix_cons.mp h2
        have : q2 = [] := List.prefix_nil.mp h4
        rw [this]

/-- Every event of a scan's trace was emitted while processing some listed
folder that was not in `done_folders`. -/
theorem mem_scan_origin (env : Env) (done : List String) :
    ∀ fs, ∀ e ∈ (scanFolders env done fs).1,
      ∃ g, g ∈ fs ∧ g ∉ done ∧ e ∈ (processFolder env g).1 := by
  intro fs
  induction fs with
  | nil =>
    intro e h
    simp [scanFolders] at h
  | cons g rest ih =>
    intro e h
    by_cases hm : g ∈ done
    · simp only [scanFolders, if_pos hm] at h
      obtain ⟨g2, hg2, hnd, hmem⟩ := ih e h
      exact ⟨g2, List.mem_cons_of_mem _ hg2, hnd, hmem⟩
    · simp only [scanFolders, if_neg hm] at h
      by_cases hp : (processFolder env g).2
      · simp only [hp, if_pos] at h
        rcases List.mem_append.mp h with h1 | h1
        · exact ⟨g, List.mem_cons_self _ _, hm, h1⟩
        · obtain ⟨g2, hg2, hnd, hmem⟩ := ih e h1
          exact ⟨g2, List.mem_cons_of_mem _ hg2, hnd, hmem⟩
      · simp only [Bool.not_eq_true] at hp
        simp only [hp, Bool.false_eq_true, if_neg, not_false_iff] at h
        exact ⟨g, List.mem_cons_self _ _, hm, h⟩

/-- Ids appended to the ledger during a scan: listed, not already done, and
their loop body succeeded. -/
theorem scan_ids_spec (env : Env) (done : List String) :
    ∀ fs, ∀ f ∈ (scanFolders env done fs).2.1,
      f ∈ fs ∧ f ∉ done ∧ (processFolder env f).2 = true := by
  intro fs
  induction fs with
  | nil =>
    intro f h
    simp [scanFolders] at h
  | cons g rest ih =>
    intro f h
    by_cases hm : g ∈ done
    · simp only [scanFolders, if_pos hm] at h
      obtain ⟨h1, h2, h3⟩ := ih f h
      exact ⟨List.mem_cons_of_mem _ h1, h2, h3⟩
    · simp only [scanFolders, if_neg hm] at h
      by_cases hp : (processFolder env g).2
      · simp only [hp, if_pos] at h
        rcases List.mem_cons.mp h with rfl | h1
        · exact ⟨List.mem_cons_self _ _, hm, hp⟩
        · obtain ⟨h2, h3, h4⟩ := ih f h1
          exact ⟨List.mem_cons_of_mem _ h2, h3, h4⟩
      · simp only [Bool.not_eq_true] at hp
        simp only [hp, Bool.false_eq_true, if_neg, not_false_iff] at h
        simp at h

/-- If the scan ran the ffmpeg command for `f` and that command exited with
code 0, then `f` was appended to the ledger during the scan. -/
theorem scan_ids_complete (env : Env) (done : List String) :
    ∀ fs f c, Event.runShell f c ∈ (scanFolders env done fs).1 →
      env.ffmpegExit f = 0 → f ∈ (scanFolders env done fs).2.1 := by
  intro fs
  induction fs with
  | nil =>
    intro f c h _
    simp [scanFolders] at h
  | cons g rest ih =>
    intro f c h hx
    by_cases hm : g ∈ done
    · simp only [scanFolders, if_pos hm] at h ⊢
      exact ih f c h hx
    · simp only [scanFolders, if_neg hm] at h ⊢
      by_cases hp : (processFolder env g).2
      · simp only [hp, if_pos] at h ⊢
        rcases List.mem_append.mp h with h1 | h1
        · obtain ⟨rfl, _⟩ := runShell_mem_processFolder h1
          exact List.mem_cons_self _ _
        · exact List.mem_cons_of_mem _ (ih f c h1 hx)
      · simp only [Bool.not_eq_true] at hp
        simp only [hp, Bool.false_eq_true, if_neg, not_false_iff] at h
        obtain ⟨rfl, _⟩ := runShell_mem_processFolder h
        have := processFolder_ok_of_runShell h hx
        rw [hp] at this
        simp at this

/-- Write-ordering safety: in every prefix of a scan's trace (that is, at
every moment, including a crash at any point), a ledger append for `f` is
preceded by a successful run of the ffmpeg command for `f`. -/
theorem scan_prefix_safety (env : Env) (done : List String) :
    ∀ fs p f, p <+: (scanFolders env done fs).1 → Event.ledgerAppend f ∈ p →
      Event.runShell f (ffmpegCommand f) ∈ p ∧ env.ffmpegExit f = 0 := by
  intro fs
  induction fs with
  | nil =>
    intro p f hp hm
    simp [scanFolders] at hp
    rw [hp] at hm
    simp at hm
  | cons g rest ih =>
    intro p f hpre hm
    by_cases hd : g ∈ done
    · simp only [scanFolders, if_pos hd] at hpre
      exact ih p f hpre hm
    · simp only [scanFolders, if_neg hd] at hpre
      by_cases hp : (processFolder env g).2
      · simp only [hp, if_pos] at hpre
        obtain ⟨t, hdesc, hne, hshape⟩ := processFolder_ok_shape hp
        rcases prefix_append_cases _ p _ hpre with h1 | ⟨q, rfl, h2⟩
        · have hmem : Event.ledgerAppend f ∈ (processFolder env g).1 :=
            h1.subset hm
          obtain ⟨rfl, _⟩ := ledgerAppend_mem_processFolder hmem
          rw [hshape] at h1
          have hfull :=
            prefix_concat_full
              (l := [Event.readDesc f, Event.providerCall t f,
                Event.runShell f (ffmpegCommand f)])
              (y := Event.ledgerAppend f) h1 hm (by simp)
          refine ⟨?_, ffmpegExit_of_processFolder_ok hp⟩
          rw [hfull]
          simp
        · rcases List.mem_append.mp hm with h3 | h3
          · obtain ⟨rfl, _⟩ := ledgerAppend_mem_processFolder h3
            refine ⟨?_, ffmpegExit_of_processFolder_ok hp⟩
            apply List.mem_append_left
            rw [hshape]
            simp
          · obtain ⟨h4, h5⟩ := ih q f h2 h3
            exact ⟨List.mem_append_right _ h4, h5⟩
      · simp only [Bool.not_eq_true] at hp
        simp only [hp, Bool.false_eq_true, if_neg, not_false_iff] at hpre
        have hmem : Event.ledgerAppend f ∈ (processFolder env g).1 :=
          hpre.subset hm
        have := (ledgerAppend_mem_processFolder hmem).2
        rw [hp] at this
        simp at this

example : doneFoldersOf "" = [] := by decide

/-- `readlines` of a non-empty text is non-empty. -/
theorem pyReadlinesL_ne_nil : ∀ {l : List Char}, l ≠ [] → pyReadlinesL l ≠ [] := by
  intro l h
  match l with
  | c :: rest =>
    simp only [pyReadlinesL]
    by_cases hc : c = '\n'
    · simp [hc]
    · simp only [hc, if_false]
      rcases hr : pyReadlinesL rest with _ | ⟨a, as⟩ <;> simp

/-- A non-empty chunk with no newline is read back as a single line. -/
theorem pyReadlinesL_no_newline :
    ∀ {l : List Char}, l ≠ [] → '\n' ∉ l → pyReadlinesL l = [l] := by
  intro l
  induction l with
  | nil => intro h _; exact absurd rfl h
  | cons c rest ih =>
    intro _ hn
    have hc : c ≠ '\n' := fun h => hn (h ▸ List.mem_cons_self _ _)
    have hrest : '\n' ∉ rest := fun h => hn (List.mem_cons_of_mem _ h)
    simp only [pyReadlinesL, hc, if_false]
    cases hr : rest with
    | nil => simp [pyReadlinesL]
    | cons b r2 =>
      rw [← hr]
      rw [ih (by rw [hr]; simp) hrest]

/-- Unfolding `readlines` at a newline head. -/
theorem pyReadlinesL_cons_newline (rest : List Char) :
    pyReadlinesL ('\n' :: rest) = ['\n'] :: pyReadlinesL rest := by
  simp [pyReadlinesL]

/-- Unfolding `readlines` at a non-newline head. -/
theorem pyReadlinesL_cons_other {c : Char} (hc : c ≠ '\n') (rest : List Char) :
    pyReadlinesL (c :: rest) =
      match pyReadlinesL rest with
      | [] => [[c]]
      | l :: ls => (c :: l) :: ls := by
  simp [pyReadlinesL, hc]

/-- A newline-terminated chunk with no inner newline is one line. -/
theorem pyReadlinesL_concat_newline {l : List Char} (h : '\n' ∉ l) :
    pyReadlinesL (l ++ ['\n']) = [l ++ ['\n']] := by
  induction l with
  | nil => simp [pyReadlinesL]
  | cons c rest ih =>
    have hc : c ≠ '\n' := fun hx => h (hx ▸ List.mem_cons_self _ _)
    have hrest : '\n' ∉ rest := fun hx => h (List.mem_cons_of_mem _ hx)
    rw [List.cons_append, pyReadlinesL_cons_other hc, ih hrest]

/-- `readlines` splits at a newline boundary: reading a text whose first part
is empty or newline-terminated proceeds part by part. -/
theorem pyReadlinesL_append :
    ∀ (c r : List Char), (c = [] ∨ c.getLast? = some '\n') →
      pyReadlinesL (c ++ r) = pyReadlinesL c ++ pyReadlinesL r := by
  intro c
  induction c with
  | nil => intro r _; simp [pyReadlinesL]
  | cons a c2 ih =>
    intro r h
    rcases h with h | h
    · exact absurd h (by simp)
    · by_cases ha : a = '\n'
      · subst ha
        by_cases hc2 : c2 = []
        · subst hc2
          simp [pyReadlinesL_cons_newline, pyReadlinesL]
        · have h2 : c2.getLast? = some '\n' := by
            obtain ⟨b, c3, hc⟩ := List.exists_cons_of_ne_nil hc2
            rw [hc] at h ⊢
            rw [List.getLast?_cons_cons] at h
            exact h
          rw [List.cons_append, pyReadlinesL_cons_newline]
          rw [pyReadlinesL_cons_newline]
          rw [ih r (Or.inr h2)]
          simp
      · have hc2 : c2 ≠ [] := by
          intro hx
          subst hx
          simp at h
          exact ha h
        have h2 : c2.getLast? = some '\n' := by
          obtain ⟨b, c3, hc⟩ := List.exists_cons_of_ne_nil hc2
          rw [hc] at h ⊢
          rw [List.getLast?_cons_cons] at h
          exact h
        rcases hr : pyReadlinesL c2 with _ | ⟨l, ls⟩
        · exact absurd hr (pyReadlinesL_ne_nil hc2)
        · rw [List.cons_append, pyReadlinesL_cons_other ha]
          rw [pyReadlinesL_cons_other ha]
          rw [ih r (Or.inr h2), hr]
          simp

/-- Stripping ignores a trailing newline. -/
theorem stripL_concat_newline (l : List Char) :
    stripL (l ++ ['\n']) = stripL l := by
  unfold stripL
  rw [List.dropWhile_append]
  by_cases h : (l.dropWhile isPySpace).isEmpty
  · simp only [h, if_pos]
    rw [List.isEmpty_iff] at h
    rw [h]
    simp [List.dropWhile, isPySpace]
  · simp only [h, if_neg, Bool.not_eq_true, if_false]
    rw [List.reverse_append]
    simp only [List.reverse_cons, List.reverse_nil, List.nil_append,
      List.singleton_append, List.dropWhile]
    have : isPySpace '\n' = true := by decide
    simp [this]

/-- Appending one newline-terminated id to the ledger text adds exactly one
parsed entry. -/
theorem doneFoldersOf_append_entry (c i : String)
    (hc : c = "" ∨ c.data.getLast? = some '\n') (hi : '\n' ∉ i.data) :
    doneFoldersOf (c ++ (i ++ "\n"))
      = doneFoldersOf c ++ [String.mk (stripL i.data)] := by
  unfold doneFoldersOf
  have hdata : (c ++ (i ++ "\n")).data = c.data ++ (i.data ++ ['\n']) := by
    rw [String.data_append, String.data_append]
  rw [hdata]
  have hc2 : c.data = [] ∨ c.data.getLast? = some '\n' := by
    rcases hc with hc | hc
    · left
      rw [hc]
    · right
      exact hc
  rw [pyReadlinesL_append _ _ hc2, pyReadlinesL_concat_newline hi]
  rw [List.map_append]
  simp [stripL_concat_newline]

/-- The ledger text stays newline-terminated (or grows so) after an append. -/
theorem append_entry_newline_terminated (c i : String) :
    (c ++ (i ++ "\n")).data.getLast? = some '\n' := by
  rw [String.data_append, String.data_append]
  rw [← List.append_assoc]
  exact List.getLast?_concat _

/-- Parsing the ledger after a scan appended `ids`: the old entries followed
by the stripped new ids, in order. -/
theorem doneFoldersOf_newContent :
    ∀ (ids : List String) (c : String),
      (c = "" ∨ c.data.getLast? = some '\n') →
      (∀ i ∈ ids, '\n' ∉ i.data) →
      doneFoldersOf (newContent c ids)
        = doneFoldersOf c ++ ids.map (fun i => String.mk (stripL i.data)) := by
  intro ids
  induction ids with
  | nil => intro c _ _; simp [newContent]
  | cons i is ih =>
    intro c hc hn
    have hi : '\n' ∉ i.data := hn i (List.mem_cons_self _ _)
    have his : ∀ j ∈ is, '\n' ∉ j.data := fun j hj => hn j (List.mem_cons_of_mem _ hj)
    simp only [newContent]
    rw [ih (c ++ (i ++ "\n")) (Or.inr (append_entry_newline_terminated c i)) his]
    rw [doneFoldersOf_append_entry c i hc hi]
    simp

example :
    runScan
      { folders := ["a"], desc := fun _ => some "hi",
        provider := fun _ _ => true, ffmpegExit := fun _ => 0 } ""
    = ([.readDesc "a", .providerCall "hi" "a", .runShell "a" (ffmpegCommand "a"),
        .ledgerAppend "a"], ["a"], true) := by decide

/-- An id appended during a scan had its ffmpeg command run in that scan. -/
theorem scan_ids_ran (env : Env) (done : List String) :
    ∀ fs, ∀ f ∈ (scanFolders env done fs).2.1,
      Event.runShell f (ffmpegCommand f) ∈ (scanFolders env done fs).1 := by
  intro fs
  induction fs with
  | nil =>
    intro f h
    simp [scanFolders] at h
  | cons g rest ih =>
    intro f h
    by_cases hm : g ∈ done
    · simp only [scanFolders, if_pos hm] at h ⊢
      exact ih f h
    · simp only [scanFolders, if_neg hm] at h ⊢
      by_cases hp : (processFolder env g).2
      · simp only [hp, if_pos] at h ⊢
        rcases List.mem_cons.mp h with rfl | h1
        · apply List.mem_append_left
          obtain ⟨t, _, _, hshape⟩ := processFolder_ok_shape hp
          rw [hshape]
          simp
        · exact List.mem_append_right _ (ih f h1)
      · simp only [Bool.not_eq_true] at hp
        simp only [hp, Bool.false_eq_true, if_neg, not_false_iff] at h
        simp at h

end VidSnap

namespace VidSnapWeb

/-- Writing manifest chunks one by one appends their concatenation. -/
theorem foldl_manifest (l : List String) :
    ∀ ex : String,
      l.foldl (fun acc fl => acc ++ manifestLine fl) ex = ex ++ renderOf l := by
  induction l with
  | nil =>
    intro ex
    simp [renderOf, String.append_empty]
  | cons x xs ih =>
    intro ex
    simp only [List.foldl_cons, renderOf]
    rw [ih (ex ++ manifestLine x), String.append_assoc]

/-- The manifest after a POST is the previous text followed by the rendered
lines of the newly collected files, in order. -/
theorem manifestAfterPost_eq (env : UploadEnv) (recId : Option String)
    (ex : String) (files : List String) :
    manifestAfterPost env recId ex files
      = ex ++ renderOf (input_files env recId files) :=
  foldl_manifest _ _

/-- When every posted file has a non-empty allowed name, the collected list is
the posted list (secured), order preserved verbatim. -/
theorem input_files_all_allowed (env : UploadEnv) (id : String)
    (files : List String)
    (h : ∀ fn ∈ files, fn ≠ "" ∧ allowed_file fn = true) :
    input_files env (some id) files = files.map env.sf := by
  unfold input_files
  have : files.filter (fun fn => fn ≠ "" && allowed_file fn) = files := by
    rw [List.filter_eq_self]
    intro fn hfn
    obtain ⟨h1, h2⟩ := h fn hfn
    simp [h1, h2]
  rw [this]

/-- A manifest chunk is never the empty string. -/
theorem manifestLine_ne_empty (fl : String) : (manifestLine fl).data ≠ [] := by
  unfold manifestLine
  rw [String.data_append, String.data_append]
  intro hx
  rw [List.append_eq_nil] at hx
  rw [List.append_eq_nil] at hx
  have := hx.1.1
  revert this
  decide

/-- Appending a non-empty string changes the string. -/
theorem append_ne_self {s r : String} (h : r.data ≠ []) : s ++ r ≠ s := by
  intro hx
  have h2 := congrArg String.data hx
  rw [String.data_append] at h2
  have h3 := congrArg List.length h2
  rw [List.length_append] at h3
  have : r.data.length = 0 := by omega
  exact h (List.length_eq_zero.mp this)

end VidSnapWeb

namespace VidSnap

/-- Scenario-A environment: one job with a non-empty description, a
cooperating provider and a succeeding encoder. -/
def envA : Env :=
  { folders := ["job-1"], desc := fun _ => some "hello world",
    provider := fun _ _ => true, ffmpegExit := fun _ => 0 }

/-- **C1.** Ledger/output invariant: in every prefix of a scan's event trace
(that is, at every moment, even if the process crashes mid-scan), a ledger
append for a job id is preceded by a run of that id's assembly command that
exited successfully — the append never comes first; and an id is appended to
the ledger during a scan exactly when its assembly command ran in that scan
and exited with code 0 (the output video was fully written). -/
theorem ledger_append_iff_assembly_success (env : Env) (content f : String) :
    (∀ p, p <+: (runScan env content).1 → Event.ledgerAppend f ∈ p →
        Event.runShell f (ffmpegCommand f) ∈ p ∧ env.ffmpegExit f = 0)
    ∧ (f ∈ (runScan env content).2.1 ↔
        Event.runShell f (ffmpegCommand f) ∈ (runScan env content).1
          ∧ env.ffmpegExit f = 0) := by
  refine ⟨?_, ?_, ?_⟩
  · intro p hp hm
    exact scan_prefix_safety env (doneFoldersOf content) env.folders p f hp hm
  · intro h
    refine ⟨scan_ids_ran env (doneFoldersOf content) env.folders f h, ?_⟩
    obtain ⟨_, _, h3⟩ := scan_ids_spec env (doneFoldersOf content) env.folders f h
    exact ffmpegExit_of_processFolder_ok h3
  · intro h
    exact scan_ids_complete env (doneFoldersOf content) env.folders f
      (ffmpegCommand f) h.1 h.2

/-- Witness for C1 at Scenario A: the scan appends `job-1` to the ledger. -/
theorem ledger_append_iff_assembly_success_witness :
    "job-1" ∈ (runScan envA "").2.1 :=
  (ledger_append_iff_assembly_success envA "" "job-1").2.mpr (by decide)

/-- Scenario-C environment: `job-3` is on disk and the world would let it be
processed again. -/
def envC : Env :=
  { folders := ["job-3"], desc := fun _ => some "hi",
    provider := fun _ _ => true, ffmpegExit := fun _ => 0 }

/-- **C2.** Idempotency of completed jobs: if a job id is in the parsed
ledger at scan start, the scan emits no event for that id — `text_to_audio`
is not entered (no description read, no provider call), `create_reel` is not
invoked (no shell run), and no further ledger write happens for it. -/
theorem done_id_untouched (env : Env) (content f : String)
    (h : f ∈ doneFoldersOf content) :
    (∀ e ∈ (runScan env content).1, Event.folder e ≠ f)
    ∧ f ∉ (runScan env content).2.1 := by
  constructor
  · intro e he
    obtain ⟨g, _, hnd, hmem⟩ := mem_scan_origin env (doneFoldersOf content)
      env.folders e he
    rw [folder_of_mem_processFolder env g e hmem]
    intro hx
    exact hnd (hx ▸ h)
  · intro hf
    obtain ⟨_, h2, _⟩ := scan_ids_spec env (doneFoldersOf content) env.folders f hf
    exact h2 h

/-- Witness for C2 at Scenario C: with `job-3` recorded, a scan that finds
`job-3` on disk appends nothing for it. -/
theorem done_id_untouched_witness :
    "job-3" ∉ (runScan envC "job-3\n").2.1 :=
  (done_id_untouched envC "job-3\n" "job-3" (by decide)).2

end VidSnap

namespace VidSnap

/-- Environment with a failing first job (`desc.txt` unreadable) followed by a
perfectly healthy job. -/
def envE : Env :=
  { folders := ["job-err", "job-ok"],
    desc := fun g => if g = "job-ok" then some "hi" else none,
    provider := fun _ _ => true, ffmpegExit := fun _ => 0 }

/-- **C3, counterexample.** The claim says one job's failure never terminates
the scan: here the first job's failure aborts the scan (abnormal end) and the
healthy next job is never touched — its description is never even read. -/
theorem scan_aborts_on_job_failure_counterexample :
    (runScan envE "").2.2 = false
    ∧ Event.readDesc "job-ok" ∉ (runScan envE "").1 := by decide

/-- **C3, amended.** The loop body has no exception handling: when processing
a folder fails at any stage, the exception propagates, the scan stops at that
folder (abnormal end, nothing appended), and later folders of the same scan
are not processed. -/
theorem scan_aborts_on_job_failure (env : Env) (done : List String)
    (f : String) (rest : List String) (h1 : f ∉ done)
    (h2 : (processFolder env f).2 = false) :
    scanFolders env done (f :: rest) = ((processFolder env f).1, [], false) := by
  simp only [scanFolders, if_neg h1]
  simp [h2]

/-- Witness for the amended C3 on the concrete two-job environment. -/
theorem scan_aborts_on_job_failure_witness :
    scanFolders envE [] ["job-err", "job-ok"]
      = ((processFolder envE "job-err").1, [], false) :=
  scan_aborts_on_job_failure envE [] "job-err" ["job-ok"] (by decide) (by decide)

/-- Scenario-D environment: the encoder exits with code 1 for every job. -/
def envD : Env :=
  { folders := ["job-4"], desc := fun _ => some "hi",
    provider := fun _ _ => true, ffmpegExit := fun _ => 1 }

/-- **C4, counterexample.** The claim says assembly writes to a temporary
path that is renamed to `static/reels/job-4.mp4` on success: the embedded
`create_reel` performs no rename at all. -/
theorem assembly_temp_rename_counterexample :
    ¬ ∃ tmp, tmp ≠ "static/reels/job-4.mp4"
        ∧ Event.rename tmp "static/reels/job-4.mp4"
            ∈ (create_reel envD "job-4").1 := by
  intro ⟨tmp, _, hmem⟩
  simp [create_reel] at hmem

/-- **C4, amended.** `create_reel` runs a single shell command whose output
argument is the canonical path `static/reels/<id>.mp4` directly (no temporary
path, no rename); when the encoder fails, the id is still kept out of the
ledger — but nothing protects the canonical path from a partial file. -/
theorem assembly_writes_canonical_directly (env : Env) (content f : String)
    (hfail : env.ffmpegExit f ≠ 0) :
    (create_reel env f).1 = [Event.runShell f (ffmpegCommand f)]
    ∧ (∃ pre, ffmpegCommand f = pre ++ ("static/reels/" ++ f ++ ".mp4"))
    ∧ Event.ledgerAppend f ∉ (runScan env content).1
    ∧ f ∉ (runScan env content).2.1 := by
  refine ⟨rfl, ⟨_, rfl⟩, ?_, ?_⟩
  · intro hmem
    obtain ⟨g, _, _, hpf⟩ := mem_scan_origin env (doneFoldersOf content)
      env.folders _ hmem
    obtain ⟨rfl, hok⟩ := ledgerAppend_mem_processFolder hpf
    exact hfail (ffmpegExit_of_processFolder_ok hok)
  · intro hmem
    obtain ⟨_, _, hok⟩ := scan_ids_spec env (doneFoldersOf content)
      env.folders f hmem
    exact hfail (ffmpegExit_of_processFolder_ok hok)

/-- Witness for the amended C4 at Scenario D: encoder exit 1 keeps `job-4`
out of the ledger. -/
theorem assembly_writes_canonical_directly_witness :
    "job-4" ∉ (runScan envD "").2.1 :=
  (assembly_writes_canonical_directly envD "" "job-4" (by decide)).2.2.2

/-- Environment in which `job-3` exists on disk and could be re-processed. -/
def envG : Env :=
  { folders := ["job-3"], desc := fun _ => some "hello",
    provider := fun _ _ => true, ffmpegExit := fun _ => 0 }

/-- **C5, counterexample.** The claim says a truncated (not
newline-terminated) trailing ledger id is treated as absent: with ledger text
`"job-1\njob-3"` the membership check accepts the truncated `job-3` as
present, and a scan that finds `job-3` on disk skips it entirely. -/
theorem truncated_ledger_line_counterexample :
    "job-3" ∈ doneFoldersOf "job-1\njob-3"
    ∧ Event.readDesc "job-3" ∉ (runScan envG "job-1\njob-3").1 := by decide

/-- **C5, amended.** The membership check (`readlines` + `strip`) parses a
truncated trailing id exactly like a newline-terminated one: any
whitespace-clean, newline-free id appended to a newline-terminated (or empty)
ledger text without its own terminator is read back as present. -/
theorem truncated_ledger_line_present (c f : String)
    (h1 : '\n' ∉ f.data) (h2 : stripL f.data = f.data) (h3 : f ≠ "")
    (h4 : c = "" ∨ c.data.getLast? = some '\n') :
    f ∈ doneFoldersOf (c ++ f) := by
  unfold doneFoldersOf
  rw [String.data_append]
  have hfd : f.data ≠ [] := by
    intro hx
    exact h3 (String.ext hx)
  have h4d : c.data = [] ∨ c.data.getLast? = some '\n' := by
    rcases h4 with h | h
    · left
      rw [h]
    · right
      exact h
  rw [pyReadlinesL_append _ _ h4d, pyReadlinesL_no_newline hfd h1]
  rw [List.map_append]
  apply List.mem_append_right
  simp only [List.map_cons, List.map_nil, h2]
  have : String.mk f.data = f := rfl
  rw [this]
  exact List.mem_singleton.mpr rfl

/-- Witness for the amended C5: the truncated `job-3` is parsed as present. -/
theorem truncated_ledger_line_present_witness :
    "job-3" ∈ doneFoldersOf ("job-1\n" ++ "job-3") :=
  truncated_ledger_line_present "job-1\n" "job-3" (by decide) (by decide)
    (by decide) (by decide)

end VidSnap

namespace VidSnap

/-- Scenario-B environment: `job-2` has an empty description file. -/
def envB : Env :=
  { folders := ["job-2"], desc := fun _ => some "",
    provider := fun _ _ => true, ffmpegExit := fun _ => 0 }

/-- **C6.** Empty description is rejected locally: synthesis on empty text
returns `EmptyInput` with no provider contact; during the whole scan the
provider is never called for that job, no ledger write happens for it, and
after the scan the id is still absent from the parsed ledger, so the next
scan's scan set contains it again. -/
theorem empty_description_rejected_locally (env : Env) (content f : String)
    (hdesc : env.desc f = some "")
    (hclean : ∀ g ∈ env.folders, stripL g.data = g.data ∧ '\n' ∉ g.data)
    (hnl : content = "" ∨ content.data.getLast? = some '\n')
    (hnotdone : f ∉ doneFoldersOf content) :
    text_to_speech_file env "" f = ([], Except.error SynthesisError.EmptyInput)
    ∧ (∀ t, Event.providerCall t f ∉ (runScan env content).1)
    ∧ Event.ledgerAppend f ∉ (runScan env content).1
    ∧ f ∉ (runScan env content).2.1
    ∧ f ∉ doneFoldersOf (newContent content (runScan env content).2.1) := by
  have hpf : processFolder env f = ([Event.readDesc f], false) :=
    processFolder_empty_desc hdesc
  have hnotin : f ∉ (runScan env content).2.1 := by
    intro hmem
    obtain ⟨_, _, hok⟩ := scan_ids_spec env (doneFoldersOf content)
      env.folders f hmem
    rw [hpf] at hok
    simp at hok
  refine ⟨rfl, ?_, ?_, hnotin, ?_⟩
  · intro t hmem
    obtain ⟨g, _, _, hin⟩ := mem_scan_origin env (doneFoldersOf content)
      env.folders _ hmem
    obtain ⟨rfl, hd2, hne⟩ := providerCall_mem_processFolder hin
    rw [hdesc] at hd2
    exact hne (Option.some_injective _ hd2).symm
  · intro hmem
    obtain ⟨g, _, _, hin⟩ := mem_scan_origin env (doneFoldersOf content)
      env.folders _ hmem
    obtain ⟨rfl, hok⟩ := ledgerAppend_mem_processFolder hin
    rw [hpf] at hok
    simp at hok
  · have hids : ∀ i ∈ (runScan env content).2.1, '\n' ∉ i.data := fun i hi =>
      (hclean i (scan_ids_spec env (doneFoldersOf content) env.folders i hi).1).2
    rw [doneFoldersOf_newContent (runScan env content).2.1 content hnl hids]
    intro hmem
    rcases List.mem_append.mp hmem with hmem | hmem
    · exact hnotdone hmem
    · obtain ⟨i, hi, hmk⟩ := List.mem_map.mp hmem
      have hcl := hclean i
        (scan_ids_spec env (doneFoldersOf content) env.folders i hi).1
      rw [hcl.1] at hmk
      have hif : i = f := hmk
      rw [hif] at hi
      exact hnotin hi

/-- Witness for C6 at Scenario B: the empty-description job is never appended
to the ledger. -/
theorem empty_description_rejected_locally_witness :
    Event.ledgerAppend "job-2" ∉ (runScan envB "").1 :=
  (empty_description_rejected_locally envB "" "job-2" rfl (by decide)
    (Or.inl rfl) (by decide)).2.2.1

/-- Environment with an invalid entry (no description file at all) listed
before a fully valid job. -/
def envF : Env :=
  { folders := ["bad", "good"],
    desc := fun g => if g = "good" then some "hi" else none,
    provider := fun _ _ => true, ffmpegExit := fun _ => 0 }

/-- **C7, counterexample.** The claim says an entry failing validation (here:
no description file) is not treated as a job and is skipped with the scan
continuing: instead the scan does treat it as a job (it starts processing it
by reading its description), crashes on it, and never reaches the valid
entry listed after it. -/
theorem discovery_validation_counterexample :
    Event.readDesc "bad" ∈ (runScan envF "").1
    ∧ (runScan envF "").2.2 = false
    ∧ Event.readDesc "good" ∉ (runScan envF "").1 := by decide

/-- **C7, amended.** Discovery performs no validation: every directory entry
not in the parsed ledger is processed as a job regardless of its contents,
and an entry with no readable description makes the scan die on the spot,
leaving the rest of the scan unprocessed. -/
theorem discovery_no_validation (env : Env) (done : List String) (f : String)
    (rest : List String) (h1 : f ∉ done) (h2 : env.desc f = none) :
    scanFolders env done (f :: rest) = ([Event.readDesc f], [], false) := by
  have hpf : processFolder env f = ([Event.readDesc f], false) := by
    have hpe := processFolder_eq env f
    rw [h2] at hpe
    exact hpe
  simp only [scanFolders, if_neg h1, hpf]
  simp

/-- Witness for the amended C7 on the concrete environment. -/
theorem discovery_no_validation_witness :
    scanFolders envF [] ["bad", "good"] = ([Event.readDesc "bad"], [], false) :=
  discovery_no_validation envF [] "bad" ["good"] (by decide) (by decide)

/-- An arbitrary environment; `create_reel` consults it only for the encoder
exit code. -/
def envH : Env :=
  { folders := [], desc := fun _ => none,
    provider := fun _ _ => false, ffmpegExit := fun _ => 1 }

/-- **C8, counterexample.** The claim says job ids interpolated into the
encoder invocation are never passed to a shell unsanitized: `create_reel`
hands the shell a command in which the id `"a; echo pwned"` appears verbatim,
shell metacharacters included. -/
theorem shell_injection_counterexample :
    (create_reel envH "a; echo pwned").1
      = [Event.runShell "a; echo pwned" (ffmpegCommand "a; echo pwned")]
    ∧ ("; echo pwned").data <:+: (ffmpegCommand "a; echo pwned").data := by
  constructor
  · rfl
  · decide

/-- **C8, amended.** The folder name is interpolated verbatim — unescaped and
unvalidated — into the command string that `create_reel` executes through the
shell: the command is literally a fixed prefix, then the raw id, then the
rest of the template. -/
theorem shell_interpolation_verbatim (env : Env) (f : String) :
    (create_reel env f).1 = [Event.runShell f (ffmpegCommand f)]
    ∧ ∃ pre suf, ffmpegCommand f = pre ++ (f ++ suf) := by
  refine ⟨rfl, "ffmpeg -f concat -safe 0 -i " ++ "user_uploads/", "/input.txt"
    ++ " -i " ++ ("user_uploads/" ++ f ++ "/audio.mp3")
    ++ " -vf \"scale=1080:1920: force_original_aspect_ratio=decrease,pad=1080:1920:(ow-iw)/2:(oh-ih)/2:black\" -c:v libx264 -c:a aac -shortest -r 30 -pix_fmt yuv420p "
    ++ ("static/reels/" ++ f ++ ".mp4"), ?_⟩
  simp only [ffmpegCommand, String.append_assoc]

end VidSnap

namespace VidSnapWeb

/-- The identity securing function, for concrete upload scenarios in which
the posted names are already safe. -/
def envI : UploadEnv := { sf := fun s => s }

/-- **C9.** Order preservation: the files collected by the upload endpoint
keep their posted order verbatim, the manifest chunks appended to `input.txt`
are rendered from that list in exactly that order (so swapping the input
order permutes the manifest the same way, deterministically), and the
assembly command consumes exactly that manifest file
(`user_uploads/<id>/input.txt`). -/
theorem manifest_preserves_upload_order (env : UploadEnv) (id ex : String)
    (files : List String)
    (h : ∀ fn ∈ files, fn ≠ "" ∧ allowed_file fn = true) :
    input_files env (some id) files = files.map env.sf
    ∧ manifestAfterPost env (some id) ex files
        = ex ++ renderOf (files.map env.sf)
    ∧ ∃ pre suf, VidSnap.ffmpegCommand id
        = pre ++ (("user_uploads/" ++ id ++ "/input.txt") ++ suf) := by
  refine ⟨input_files_all_allowed env id files h, ?_, ?_⟩
  · rw [manifestAfterPost_eq, input_files_all_allowed env id files h]
  · refine ⟨"ffmpeg -f concat -safe 0 -i ", " -i "
      ++ ("user_uploads/" ++ id ++ "/audio.mp3")
      ++ " -vf \"scale=1080:1920: force_original_aspect_ratio=decrease,pad=1080:1920:(ow-iw)/2:(oh-ih)/2:black\" -c:v libx264 -c:a aac -shortest -r 30 -pix_fmt yuv420p "
      ++ ("static/reels/" ++ id ++ ".mp4"), ?_⟩
    simp only [VidSnap.ffmpegCommand, String.append_assoc]

/-- Witness for C9: three images posted in order produce the manifest lines
in exactly that order. -/
theorem manifest_preserves_upload_order_witness :
    manifestAfterPost envI (some "job-9") "" ["a.png", "b.png", "c.png"]
      = renderOf ["a.png", "b.png", "c.png"] := by
  have h := (manifest_preserves_upload_order envI "job-9" ""
    ["a.png", "b.png", "c.png"] (by decide)).2.1
  simpa [envI, String.empty_append] using h

/-- **C10.** Manifest append on resubmission: a POST reusing a job id opens
`input.txt` in append mode, so the previous manifest text stays unchanged as
a prefix and the new chunks are added after it (the result is never the old
text when a file was collected), and a repeated identical submission
duplicates the chunks instead of replacing the manifest. -/
theorem manifest_append_on_resubmission (env : UploadEnv) (id ex : String)
    (files : List String)
    (h : input_files env (some id) files ≠ []) :
    manifestAfterPost env (some id) ex files
        = ex ++ renderOf (input_files env (some id) files)
    ∧ manifestAfterPost env (some id) ex files ≠ ex
    ∧ manifestAfterPost env (some id)
        (manifestAfterPost env (some id) ex files) files
        = ex ++ (renderOf (input_files env (some id) files)
            ++ renderOf (input_files env (some id) files)) := by
  have hr : (renderOf (input_files env (some id) files)).data ≠ [] := by
    intro hy
    rcases hx : input_files env (some id) files with _ | ⟨a, as⟩
    · exact h hx
    · rw [hx] at hy
      simp only [renderOf] at hy
      rw [String.data_append] at hy
      rw [List.append_eq_nil] at hy
      exact manifestLine_ne_empty a hy.1
  refine ⟨manifestAfterPost_eq env (some id) ex files, ?_, ?_⟩
  · rw [manifestAfterPost_eq]
    exact append_ne_self hr
  · rw [manifestAfterPost_eq, manifestAfterPost_eq, String.append_assoc]

/-- Witness for C10: a single collected file makes the manifest grow. -/
theorem manifest_append_on_resubmission_witness :
    manifestAfterPost envI (some "job-9") "" ["a.png"] ≠ "" :=
  (manifest_append_on_resubmission envI "job-9" "" ["a.png"] (by decide)).2.1

end VidSnapWeb
